import Mathlib

/-!
Verification of the dice-roll CLI (src/skills/enactprotocol/enact-dice-roll-rust/dice.rs).

The program is embedded shallowly: `u64` values are natural numbers reduced
modulo `2 ^ 64` wherever the Rust code can wrap, fallible operations return
`Option`, and the imperative roll loop becomes a recursive function threading
the generator state and the two accumulators explicitly.  The time-based seed
of `Rng::new` is a parameter of the model.
-/

/-- The modulus `2 ^ 64` of Rust `u64` arithmetic. -/
def U64MOD : Nat := 2 ^ 64

/-- Wrapping `u64` addition (`u64::wrapping_add`, also the release-mode
behaviour of `+`). -/
def wrapAdd (a b : Nat) : Nat := (a + b) % U64MOD

/-- Wrapping `u64` subtraction for operands below `2 ^ 64` (release-mode
behaviour of `-`). -/
def wrapSub (a b : Nat) : Nat := (a + U64MOD - b) % U64MOD

/-- The generator of `dice.rs`: `struct Rng { state: u64 }`. -/
structure Rng where
  state : Nat
deriving Repr, DecidableEq

/-- Model of `Rng::next`: `self.state = self.state.wrapping_mul(1103515245).wrapping_add(12345);
self.state` — returns the new state and the mutated generator. -/
def Rng.next (r : Rng) : Nat × Rng :=
  ((r.state * 1103515245 + 12345) % U64MOD, ⟨(r.state * 1103515245 + 12345) % U64MOD⟩)

/-- Model of `Rng::range`: `min + (self.next() % (max - min + 1))`.  The width
`max - min + 1` is computed in wrapping `u64` arithmetic; when it is zero the
Rust `%` fails (remainder by zero), modelled here as `none`.  The outer `+`
is likewise reduced modulo `2 ^ 64`. -/
def Rng.range (r : Rng) (lo hi : Nat) : Option (Nat × Rng) :=
  if wrapAdd (wrapSub hi lo) 1 = 0 then none
  else some ((lo + r.next.1 % wrapAdd (wrapSub hi lo) 1) % U64MOD, r.next.2)

/-- The result value assembled by `main`: the rolls in order, their running
total, and the effective `sides` and `count`. -/
structure RollResult where
  rolls : List Nat
  total : Nat
  sides : Nat
  count : Nat
deriving Repr, DecidableEq

/-- An optional leading `+` sign, accepted by Rust `u64::from_str`. -/
def stripPlus (cs : List Char) : List Char :=
  match cs with
  | c :: rest => if c = '+' then rest else c :: rest
  | [] => []

/-- The numeric value of a run of ASCII digits. -/
def digitsVal (cs : List Char) : Nat :=
  cs.foldl (fun a c => a * 10 + (c.toNat - 48)) 0

/-- Rust `u64::from_str` as used by `s.parse().ok()`: an optional leading
`+`, then one or more ASCII digits, rejecting values that do not fit in
`u64`. -/
def parseU64 (s : String) : Option Nat :=
  if stripPlus s.data ≠ [] ∧ (stripPlus s.data).all Char.isDigit then
    if digitsVal (stripPlus s.data) < U64MOD then some (digitsVal (stripPlus s.data))
    else none
  else none

/-- Rust `Ord::clamp` on `u64` (`x.clamp(lo, hi)`): below `lo` gives `lo`,
above `hi` gives `hi`, otherwise `x` itself. -/
def clampU64 (x lo hi : Nat) : Nat :=
  if x < lo then lo else if hi < x then hi else x

/-- Model of `args.get(i).and_then(|s| s.parse().ok()).unwrap_or(dflt)`. -/
def parsedArg (args : List String) (i : Nat) (dflt : Nat) : Nat :=
  ((args.get? i).bind parseU64).getD dflt

/-- The effective `sides`: parse positional input 1 (default 6), then
`sides.clamp(2, 100)`. -/
def effectiveSides (args : List String) : Nat :=
  clampU64 (parsedArg args 1 6) 2 100

/-- The effective `count`: parse positional input 2 (default 1), then
`count.clamp(1, 100)`. -/
def effectiveCount (args : List String) : Nat :=
  clampU64 (parsedArg args 2 1) 1 100

/-- The `for _ in 0..count` loop of `main`: each iteration draws
`rng.range(1, sides)`, appends the roll, and adds it to the `u64` total
(which wraps modulo `2 ^ 64`).  A failing draw aborts the computation. -/
def rollLoop (sides : Nat) : Nat → Rng → List Nat → Nat → Option (List Nat × Nat × Rng)
  | 0, r, rolls, total => some (rolls, total, r)
  | n + 1, r, rolls, total =>
    (r.range 1 sides).bind fun p =>
      rollLoop sides n p.2 (rolls ++ [p.1]) ((total + p.1) % U64MOD)

/-- Model of `main`, with the time-based seed of `Rng::new` (`as_nanos() as u64`,
i.e. reduced modulo `2 ^ 64`) made an explicit parameter. -/
def runMain (args : List String) (seed : Nat) : Option RollResult :=
  match rollLoop (effectiveSides args) (effectiveCount args) ⟨seed % U64MOD⟩ [] 0 with
  | none => none
  | some (rolls, total, _) =>
    some ⟨rolls, total, effectiveSides args, effectiveCount args⟩

example : parseU64 "0" = some 0 := by decide
example : parseU64 "+42" = some 42 := by decide
example : parseU64 "abc" = none := by decide
example : parseU64 "" = none := by decide
example : parseU64 "18446744073709551615" = some (U64MOD - 1) := by decide
example : parseU64 "18446744073709551616" = none := by decide
example : effectiveSides ["p"] = 6 := by decide
example : effectiveSides ["p", "0"] = 2 := by decide
example : effectiveSides ["p", "1000"] = 100 := by decide
example : effectiveCount ["p", "6", "0"] = 1 := by decide
example : effectiveCount ["p", "6", "500"] = 100 := by decide
example : (Rng.next ⟨0⟩).1 = 12345 := by decide
example : Rng.range ⟨0⟩ 1 6 = some (1 + 12345 % 6, ⟨12345⟩) := by decide
example : Rng.range ⟨0⟩ 0 (U64MOD - 1) = none := by decide

lemma U64MOD_eq : U64MOD = 18446744073709551616 := by norm_num [U64MOD]

lemma range_spec (r : Rng) (lo hi : Nat) (hle : lo ≤ hi) (hhi : hi < U64MOD)
    (hw : hi - lo + 1 < U64MOD) :
    r.range lo hi = some (lo + r.next.1 % (hi - lo + 1), r.next.2) := by
  have h64 := U64MOD_eq
  have h1 : wrapSub hi lo = hi - lo := by simp only [wrapSub, h64]; omega
  have h2 : wrapAdd (hi - lo) 1 = hi - lo + 1 := by simp only [wrapAdd, h64]; omega
  have hm : r.next.1 % (hi - lo + 1) < hi - lo + 1 := Nat.mod_lt _ (by omega)
  simp only [Rng.range, h1, h2]
  rw [if_neg (by omega), Nat.mod_eq_of_lt (by omega)]

lemma sum_le_of_bound (l : List Nat) (b : Nat) (h : ∀ x ∈ l, x ≤ b) :
    l.sum ≤ l.length * b := by
  induction l with
  | nil => simp
  | cons a t ih =>
    simp only [List.sum_cons, List.length_cons]
    have ha := h a (by simp)
    have ht := ih (fun x hx => h x (by simp [hx]))
    have hmul : (t.length + 1) * b = t.length * b + b := by ring
    omega

lemma rollLoop_zero (sides : Nat) (r : Rng) (rolls : List Nat) (total : Nat) :
    rollLoop sides 0 r rolls total = some (rolls, total, r) := rfl

lemma rollLoop_succ (sides n : Nat) (r : Rng) (rolls : List Nat) (total : Nat) :
    rollLoop sides (n + 1) r rolls total =
      (r.range 1 sides).bind fun p =>
        rollLoop sides n p.2 (rolls ++ [p.1]) ((total + p.1) % U64MOD) := rfl

lemma rollLoop_ok (sides : Nat) (h1 : 1 ≤ sides) (hs : sides < U64MOD) :
    ∀ (count : Nat) (r : Rng) (acc : List Nat) (tot : Nat),
      tot + count * sides < U64MOD →
      ∃ out t r', rollLoop sides count r acc tot = some (acc ++ out, t, r') ∧
        out.length = count ∧ (∀ x ∈ out, 1 ≤ x ∧ x ≤ sides) ∧ t = tot + out.sum := by
  intro count
  induction count with
  | zero =>
    intro r acc tot _
    exact ⟨[], tot, r, by simp [rollLoop_zero], rfl, by simp, by simp⟩
  | succ n ih =>
    intro r acc tot htot
    have h64 := U64MOD_eq
    have hmul : (n + 1) * sides = n * sides + sides := by ring
    have hw : sides - 1 + 1 = sides := by omega
    have hrange : r.range 1 sides = some (1 + r.next.1 % sides, r.next.2) := by
      have h := range_spec r 1 sides h1 hs (by omega)
      rwa [hw] at h
    have hmod : r.next.1 % sides < sides := Nat.mod_lt _ (by omega)
    have hwrap : (tot + (1 + r.next.1 % sides)) % U64MOD = tot + (1 + r.next.1 % sides) :=
      Nat.mod_eq_of_lt (by omega)
    obtain ⟨out, t, r', heq, hlen, hmem, hsum⟩ :=
      ih r.next.2 (acc ++ [1 + r.next.1 % sides]) (tot + (1 + r.next.1 % sides)) (by omega)
    refine ⟨(1 + r.next.1 % sides) :: out, t, r', ?_, by simp [hlen], ?_, ?_⟩
    · have hstep : rollLoop sides (n + 1) r acc tot =
          rollLoop sides n r.next.2 (acc ++ [1 + r.next.1 % sides])
            ((tot + (1 + r.next.1 % sides)) % U64MOD) := by
        rw [rollLoop_succ, hrange, Option.some_bind]
      rw [hstep, hwrap, heq, List.append_assoc, List.singleton_append]
    · intro x hx
      rw [List.mem_cons] at hx
      rcases hx with h | h
      · constructor <;> omega
      · exact hmem x h
    · simp only [List.sum_cons]
      omega

lemma effectiveSides_bounds (args : List String) :
    2 ≤ effectiveSides args ∧ effectiveSides args ≤ 100 := by
  unfold effectiveSides clampU64
  split_ifs <;> omega

lemma effectiveCount_bounds (args : List String) :
    1 ≤ effectiveCount args ∧ effectiveCount args ≤ 100 := by
  unfold effectiveCount clampU64
  split_ifs <;> omega

lemma runMain_spec (args : List String) (seed : Nat) :
    ∃ res, runMain args seed = some res ∧
      res.sides = effectiveSides args ∧ res.count = effectiveCount args ∧
      res.rolls.length = effectiveCount args ∧
      (∀ x ∈ res.rolls, 1 ≤ x ∧ x ≤ effectiveSides args) ∧
      res.total = res.rolls.sum := by
  have h64 := U64MOD_eq
  have hs := effectiveSides_bounds args
  have hc := effectiveCount_bounds args
  have hmul : effectiveCount args * effectiveSides args ≤ 100 * 100 :=
    Nat.mul_le_mul hc.2 hs.2
  obtain ⟨out, t, r', heq, hlen, hmem, hsum⟩ :=
    rollLoop_ok (effectiveSides args) (by omega) (by omega)
      (effectiveCount args) ⟨seed % U64MOD⟩ [] 0 (by omega)
  refine ⟨⟨out, t, effectiveSides args, effectiveCount args⟩, ?_, rfl, rfl, hlen, hmem, ?_⟩
  · unfold runMain
    rw [heq]
    simp
  · simpa using hsum

/-- C1: for every effective `sides` in `[2, 100]`, effective `count` in
`[1, 100]` and every initial generator state, the aggregation loop succeeds
with exactly `count` rolls, each lying in `[1, sides]`, and the accumulated
total equal to the exact mathematical sum of the rolls. -/
theorem C1_roll_invariants (sides count seed : Nat)
    (h2 : 2 ≤ sides) (h100 : sides ≤ 100) (hc1 : 1 ≤ count) (hc100 : count ≤ 100) :
    ∃ rolls total r',
      rollLoop sides count ⟨seed % U64MOD⟩ [] 0 = some (rolls, total, r') ∧
      rolls.length = count ∧ (∀ x ∈ rolls, 1 ≤ x ∧ x ≤ sides) ∧ total = rolls.sum := by
  have h64 := U64MOD_eq
  obtain ⟨out, t, r', heq, hlen, hmem, hsum⟩ :=
    rollLoop_ok sides (by omega) (by omega) count ⟨seed % U64MOD⟩ [] 0
      (by have := Nat.mul_le_mul hc100 h100; omega)
  exact ⟨out, t, r', by simpa using heq, hlen, hmem, by simpa using hsum⟩

/-- Witness for C1 at `sides = 6`, `count = 3`, seed `0`. -/
theorem C1_witness :
    ∃ rolls total r',
      rollLoop 6 3 ⟨0 % U64MOD⟩ [] 0 = some (rolls, total, r') ∧
      rolls.length = 3 ∧ (∀ x ∈ rolls, 1 ≤ x ∧ x ≤ 6) ∧ total = rolls.sum :=
  C1_roll_invariants 6 3 0 (by decide) (by decide) (by decide) (by decide)

/-- C3 counterexample: at `min = 0`, `max = 2 ^ 64 - 1` (a `u64` pair with
`max ≥ min`) the `u64` width `max - min + 1` wraps to `0`, so `range` fails
with a remainder-by-zero instead of returning
`min + next() % (max - min + 1)`. -/
theorem C3_counterexample :
    Rng.range ⟨0⟩ 0 (U64MOD - 1) = none ∧
    Rng.range ⟨0⟩ 0 (U64MOD - 1) ≠
      some (0 + (Rng.next ⟨0⟩).1 % (U64MOD - 1 - 0 + 1), (Rng.next ⟨0⟩).2) := by
  constructor
  · decide
  · decide

/-- C3 (amended): for every generator state and `u64` arguments
`min ≤ max` whose width `max - min + 1` does not itself overflow `u64`
(i.e. excluding `min = 0, max = 2 ^ 64 - 1`), `range` returns exactly
`min + (next() mod (max - min + 1))` and advances the generator by exactly
one step of the recurrence. -/
theorem C3_range_correct (st lo hi : Nat) (hle : lo ≤ hi) (hhi : hi < U64MOD)
    (hw : hi - lo + 1 < U64MOD) :
    Rng.range ⟨st⟩ lo hi =
      some (lo + (Rng.next ⟨st⟩).1 % (hi - lo + 1), (Rng.next ⟨st⟩).2) :=
  range_spec ⟨st⟩ lo hi hle hhi hw

/-- Witness for the amended C3 at state `0`, `min = 1`, `max = 6`. -/
theorem C3_witness :
    Rng.range ⟨0⟩ 1 6 = some (1 + (Rng.next ⟨0⟩).1 % (6 - 1 + 1), (Rng.next ⟨0⟩).2) :=
  C3_range_correct 0 1 6 (by decide) (by decide) (by decide)

/-- The LCG recurrence exactly as the spec words it:
`state = state * A + C (mod 2^64)` with `A = 1103515245`, `C = 12345`. -/
def specLCG (s : Nat) : Nat := (s * 1103515245 + 12345) % 2 ^ 64

/-- C4: for every `u64` state `s`, `next` replaces the state with
`(s * 1103515245 + 12345) mod 2^64`, returns that new state, and is total:
the new state is again a valid `u64` (overflow wraps rather than failing). -/
theorem C4_next_lcg (s : Nat) (hs : s < U64MOD) :
    (Rng.next ⟨s⟩).1 = specLCG s ∧ ((Rng.next ⟨s⟩).2).state = specLCG s ∧
      specLCG s < U64MOD := by
  refine ⟨rfl, rfl, ?_⟩
  exact Nat.mod_lt _ (by norm_num)

/-- Witness for C4 at state `7`. -/
theorem C4_witness :
    (Rng.next ⟨7⟩).1 = specLCG 7 ∧ ((Rng.next ⟨7⟩).2).state = specLCG 7 ∧
      specLCG 7 < U64MOD :=
  C4_next_lcg 7 (by decide)

lemma clampU64_minmax (x lo hi : Nat) (h : lo ≤ hi) :
    clampU64 x lo hi = min hi (max lo x) := by
  unfold clampU64
  split_ifs <;> omega

lemma effectiveSides_of_parse (p s c : String) (n : Nat) (hp : parseU64 s = some n) :
    effectiveSides [p, s, c] = min 100 (max 2 n) := by
  simp only [effectiveSides, parsedArg, List.get?_cons_succ, List.get?_cons_zero,
    Option.some_bind, hp, Option.getD_some]
  exact clampU64_minmax n 2 100 (by norm_num)

lemma effectiveCount_of_parse (p s c : String) (m : Nat) (hp : parseU64 c = some m) :
    effectiveCount [p, s, c] = min 100 (max 1 m) := by
  simp only [effectiveCount, parsedArg, List.get?_cons_succ, List.get?_cons_zero,
    Option.some_bind, hp, Option.getD_some]
  exact clampU64_minmax m 1 100 (by norm_num)

/-- C2: a parsed positional value is silently clamped into its range —
`sides` into `[2, 100]`, `count` into `[1, 100]` (the nearest valid value);
the four concrete clamping laws hold, and no input ever makes `main` fail. -/
theorem C2_clamping :
    (∀ (p s c : String) (n seed : Nat), parseU64 s = some n →
      ∃ res, runMain [p, s, c] seed = some res ∧ res.sides = min 100 (max 2 n)) ∧
    (∀ (p s c : String) (m seed : Nat), parseU64 c = some m →
      ∃ res, runMain [p, s, c] seed = some res ∧ res.count = min 100 (max 1 m)) ∧
    effectiveSides ["p", "0"] = 2 ∧ effectiveSides ["p", "1000"] = 100 ∧
    effectiveCount ["p", "6", "0"] = 1 ∧ effectiveCount ["p", "6", "500"] = 100 ∧
    (∀ (args : List String) (seed : Nat), (runMain args seed).isSome = true) := by
  refine ⟨?_, ?_, by decide, by decide, by decide, by decide, ?_⟩
  · intro p s c n seed hp
    obtain ⟨res, hrun, hsides, -, -, -, -⟩ := runMain_spec [p, s, c] seed
    exact ⟨res, hrun, by rw [hsides, effectiveSides_of_parse p s c n hp]⟩
  · intro p s c m seed hp
    obtain ⟨res, hrun, -, hcount, -, -, -⟩ := runMain_spec [p, s, c] seed
    exact ⟨res, hrun, by rw [hcount, effectiveCount_of_parse p s c m hp]⟩
  · intro args seed
    obtain ⟨res, hrun, -⟩ := runMain_spec args seed
    rw [hrun]
    rfl

/-- Witness for C2: `sides = "0"` parses to `0` and is clamped to `2`. -/
theorem C2_witness :
    ∃ res, runMain ["p", "0", "1"] 0 = some res ∧ res.sides = min 100 (max 2 0) :=
  C2_clamping.1 "p" "0" "1" 0 0 (by decide)

/-- C5: for every argument list and every initial seed the whole computation
completes normally (`runMain` returns a result, so the remainder-by-zero
branch of `range` is unreachable), with `sides ≥ 2`, the `u64` total free of
overflow, and equal to the exact sum of the rolls. -/
theorem C5_no_failure (args : List String) (seed : Nat) :
    ∃ res, runMain args seed = some res ∧ 2 ≤ res.sides ∧
      res.total = res.rolls.sum ∧ res.total < U64MOD := by
  obtain ⟨res, hrun, hsides, hcount, hlen, hmem, htot⟩ := runMain_spec args seed
  have hs := effectiveSides_bounds args
  have hc := effectiveCount_bounds args
  have hsum := sum_le_of_bound res.rolls (effectiveSides args) (fun x hx => (hmem x hx).2)
  have hmul : effectiveCount args * effectiveSides args ≤ 100 * 100 :=
    Nat.mul_le_mul hc.2 hs.2
  have h64 := U64MOD_eq
  rw [hlen] at hsum
  refine ⟨res, hrun, by omega, htot, by omega⟩

/-- C6: with no inputs the effective values are the defaults `sides = 6`,
`count = 1`; a non-numeric first input yields the same effective `sides = 6`
as supplying no input, and the run still succeeds. -/
theorem C6_defaults :
    (∀ (p : String) (seed : Nat),
      ∃ res, runMain [p] seed = some res ∧ res.sides = 6 ∧ res.count = 1) ∧
    (∀ (p s : String) (seed : Nat), parseU64 s = none →
      effectiveSides [p, s] = effectiveSides [p] ∧
      ∃ res, runMain [p, s] seed = some res ∧ res.sides = 6 ∧ res.count = 1) := by
  constructor
  · intro p seed
    obtain ⟨res, hrun, hsides, hcount, -⟩ := runMain_spec [p] seed
    exact ⟨res, hrun, by rw [hsides]; rfl, by rw [hcount]; rfl⟩
  · intro p s seed hp
    have hes : effectiveSides [p, s] = 6 := by
      simp only [effectiveSides, parsedArg, List.get?_cons_succ, List.get?_cons_zero,
        Option.some_bind, hp, Option.getD_none]
      rfl
    obtain ⟨res, hrun, hsides, hcount, -⟩ := runMain_spec [p, s] seed
    exact ⟨by rw [hes]; rfl, res, hrun, by rw [hsides, hes], by rw [hcount]; rfl⟩

/-- Witness for C6 at the non-numeric first input `"abc"`. -/
theorem C6_witness :
    effectiveSides ["p", "abc"] = effectiveSides ["p"] ∧
    ∃ res, runMain ["p", "abc"] 0 = some res ∧ res.sides = 6 ∧ res.count = 1 :=
  C6_defaults.2 "p" "abc" 0 (by decide)

/-- C7: the computation is deterministic from the generator state and the
effective inputs — equal states and equal effective `sides` and `count`
give identical results, whatever the raw argument lists were. -/
theorem C7_determinism (args1 args2 : List String) (seed1 seed2 : Nat)
    (hstate : seed1 % U64MOD = seed2 % U64MOD)
    (hsides : effectiveSides args1 = effectiveSides args2)
    (hcount : effectiveCount args1 = effectiveCount args2) :
    runMain args1 seed1 = runMain args2 seed2 := by
  unfold runMain
  rw [hstate, hsides, hcount]

/-- Witness for C7: seeds `5` and `5 + 2 ^ 64` coincide as `u64` states, and
`"6"` and `"+6"` give the same effective inputs. -/
theorem C7_witness :
    runMain ["a", "6", "3"] 5 = runMain ["b", "+6", "3"] (5 + U64MOD) :=
  C7_determinism ["a", "6", "3"] ["b", "+6", "3"] 5 (5 + U64MOD)
    (by decide) (by decide) (by decide)

/-- C10: positional arguments beyond the second are ignored: two runs from
the same seed whose argument lists agree on the first two positional inputs
produce identical results. -/
theorem C10_extra_args_ignored (p a1 a2 : String) (rest1 rest2 : List String) (seed : Nat) :
    runMain (p :: a1 :: a2 :: rest1) seed = runMain (p :: a1 :: a2 :: rest2) seed := rfl

lemma stripPlus_of_digits (cs : List Char) (hdig : cs.all Char.isDigit = true) :
    stripPlus cs = cs := by
  cases cs with
  | nil => rfl
  | cons c rest =>
    have hc : c.isDigit = true := by
      rw [List.all_cons, Bool.and_eq_true] at hdig
      exact hdig.1
    have hcp : c ≠ '+' := by
      intro h
      rw [h] at hc
      exact absurd hc (by decide)
    simp [stripPlus, hcp]

/-- C9: a decimal numeral whose value exceeds `2 ^ 64 - 1` fails to parse,
so the default (`6` for `sides`, `1` for `count`) is substituted and clamped,
rather than the huge input being clamped to the boundary `100`. -/
theorem C9_overflow_to_default (p s : String) (seed : Nat)
    (hne : s.data ≠ []) (hdig : s.data.all Char.isDigit = true)
    (hbig : U64MOD ≤ digitsVal s.data) :
    parseU64 s = none ∧
    (∃ res, runMain [p, s] seed = some res ∧ res.sides = 6) ∧
    (∃ res, runMain [p, "6", s] seed = some res ∧ res.count = 1) := by
  have hsp := stripPlus_of_digits s.data hdig
  have hparse : parseU64 s = none := by
    unfold parseU64
    rw [hsp, if_pos ⟨hne, hdig⟩, if_neg (by omega)]
  refine ⟨hparse, ?_, ?_⟩
  · have hes : effectiveSides [p, s] = 6 := by
      simp only [effectiveSides, parsedArg, List.get?_cons_succ, List.get?_cons_zero,
        Option.some_bind, hparse, Option.getD_none]
      rfl
    obtain ⟨res, hrun, hsides, -⟩ := runMain_spec [p, s] seed
    exact ⟨res, hrun, by rw [hsides, hes]⟩
  · have hec : effectiveCount [p, "6", s] = 1 := by
      simp only [effectiveCount, parsedArg, List.get?_cons_succ, List.get?_cons_zero,
        Option.some_bind, hparse, Option.getD_none]
      rfl
    obtain ⟨res, hrun, -, hcount, -⟩ := runMain_spec [p, "6", s] seed
    exact ⟨res, hrun, by rw [hcount, hec]⟩

/-- Witness for C9 at the numeral `2 ^ 64` itself. -/
theorem C9_witness :
    parseU64 "18446744073709551616" = none ∧
    (∃ res, runMain ["p", "18446744073709551616"] 0 = some res ∧ res.sides = 6) ∧
    (∃ res, runMain ["p", "6", "18446744073709551616"] 0 = some res ∧ res.count = 1) :=
  C9_overflow_to_default "p" "18446744073709551616" 0 (by decide) (by decide) (by decide)

/-- Fuel-driven digit extraction (least-significant digit last); with fuel
above `n` this renders `n` in base 10. -/
def decCharsAux : Nat → Nat → List Char
  | 0, _ => []
  | fuel + 1, n =>
    if n < 10 then [Char.ofNat (48 + n)]
    else decCharsAux fuel (n / 10) ++ [Char.ofNat (48 + n % 10)]

/-- Rust `u64` `Display` (`to_string()` and the `{}` format captures of
`println!`): plain base-10 rendering, no sign, no separators. -/
def u64ToString (n : Nat) : String := ⟨decCharsAux (n + 1) n⟩

/-- Rust `Vec::join(",")` as applied to `rolls_json`. -/
def joinComma : List String → String
  | [] => ""
  | [s] => s
  | s :: t :: rest => s ++ "," ++ joinComma (t :: rest)

/-- The `println!` format string of `main`: the single emitted line (without
the trailing newline `println!` adds). -/
def renderOutput (res : RollResult) : String :=
  "\x7b\"rolls\":[" ++ joinComma (res.rolls.map u64ToString) ++ "],\"total\":" ++
    u64ToString res.total ++ ",\"sides\":" ++ u64ToString res.sides ++
    ",\"count\":" ++ u64ToString res.count ++ "\x7d"

/-- A plain base-10 numeral: non-empty, all ASCII digits, and no leading
zero (a leading `'0'` only as the single-digit numeral `"0"`). -/
def decimalOK (s : String) : Prop :=
  s.data ≠ [] ∧ (∀ c ∈ s.data, c.isDigit = true) ∧
    (s.data.head? = some '0' → s.data = ['0'])

lemma decCharsAux_zero (n : Nat) : decCharsAux 0 n = [] := rfl

lemma decCharsAux_succ (fuel n : Nat) :
    decCharsAux (fuel + 1) n =
      if n < 10 then [Char.ofNat (48 + n)]
      else decCharsAux fuel (n / 10) ++ [Char.ofNat (48 + n % 10)] := rfl

lemma char_digit_of_lt10 : ∀ m, m < 10 → (Char.ofNat (48 + m)).isDigit = true := by decide

lemma char_zero_of_lt10 : ∀ m, m < 10 → Char.ofNat (48 + m) = '0' → m = 0 := by decide

lemma decCharsAux_spec : ∀ (fuel n : Nat), n < fuel →
    decCharsAux fuel n ≠ [] ∧ (∀ c ∈ decCharsAux fuel n, c.isDigit = true) ∧
      ((decCharsAux fuel n).head? = some '0' → n = 0) := by
  intro fuel
  induction fuel with
  | zero => intro n h; exact absurd h (Nat.not_lt_zero n)
  | succ fuel ih =>
    intro n hn
    by_cases h : n < 10
    · rw [decCharsAux_succ, if_pos h]
      refine ⟨by simp, ?_, ?_⟩
      · intro c hc
        rw [List.mem_singleton] at hc
        rw [hc]
        exact char_digit_of_lt10 n h
      · intro hh
        rw [List.head?_cons, Option.some_inj] at hh
        exact char_zero_of_lt10 n h hh
    · rw [decCharsAux_succ, if_neg h]
      have hdiv : n / 10 < n := Nat.div_lt_self (by omega) (by norm_num)
      obtain ⟨hne, hdigs, hhead⟩ := ih (n / 10) (by omega)
      refine ⟨by simp, ?_, ?_⟩
      · intro c hc
        rw [List.mem_append] at hc
        rcases hc with hc | hc
        · exact hdigs c hc
        · rw [List.mem_singleton] at hc
          rw [hc]
          exact char_digit_of_lt10 (n % 10) (Nat.mod_lt n (by norm_num))
      · intro hh
        cases hl : decCharsAux fuel (n / 10) with
        | nil => exact absurd hl hne
        | cons a t =>
          rw [hl, List.cons_append, List.head?_cons, Option.some_inj] at hh
          have h0 : n / 10 = 0 := hhead (by rw [hl, List.head?_cons, hh])
          omega

lemma decimalOK_u64ToString (n : Nat) : decimalOK (u64ToString n) := by
  obtain ⟨h1, h2, h3⟩ := decCharsAux_spec (n + 1) n (by omega)
  refine ⟨h1, h2, ?_⟩
  intro hh
  have h0 := h3 hh
  subst h0
  decide

lemma joinComma_chars : ∀ (l : List Nat) (c : Char),
    c ∈ (joinComma (l.map u64ToString)).data → c.isDigit = true ∨ c = ',' := by
  intro l
  induction l with
  | nil =>
    intro c hc
    exact absurd hc (List.not_mem_nil c)
  | cons x t ih =>
    cases t with
    | nil =>
      intro c hc
      exact Or.inl ((decimalOK_u64ToString x).2.1 c hc)
    | cons y rest =>
      intro c hc
      rw [List.map_cons, List.map_cons] at hc
      have hj : joinComma (u64ToString x :: u64ToString y :: List.map u64ToString rest) =
          u64ToString x ++ "," ++ joinComma (u64ToString y :: List.map u64ToString rest) := rfl
      rw [hj, String.data_append, String.data_append, List.mem_append, List.mem_append] at hc
      rcases hc with (hc | hc) | hc
      · exact Or.inl ((decimalOK_u64ToString x).2.1 c hc)
      · rw [show (",".data) = [','] from rfl, List.mem_singleton] at hc
        exact Or.inr hc
      · have := ih c
        rw [List.map_cons] at this
        exact this hc

/-- C8: the emitted record is a single line (no newline character) holding
exactly the fields `rolls`, `total`, `sides`, `count` in that order, every
number rendered in plain base 10 with no leading zeros or separators. -/
theorem C8_output_format (res : RollResult) :
    renderOutput res =
      "\x7b\"rolls\":[" ++ joinComma (res.rolls.map u64ToString) ++ "],\"total\":" ++
        u64ToString res.total ++ ",\"sides\":" ++ u64ToString res.sides ++
        ",\"count\":" ++ u64ToString res.count ++ "\x7d" ∧
    ('\n' ∉ (renderOutput res).data) ∧
    decimalOK (u64ToString res.total) ∧ decimalOK (u64ToString res.sides) ∧
    decimalOK (u64ToString res.count) ∧
    (∀ r ∈ res.rolls, decimalOK (u64ToString r)) := by
  refine ⟨rfl, ?_, decimalOK_u64ToString _, decimalOK_u64ToString _,
    decimalOK_u64ToString _, fun r _ => decimalOK_u64ToString r⟩
  intro hmem
  simp only [renderOutput, String.data_append, List.mem_append] at hmem
  have hnl : ('\n').isDigit = false := by decide
  rcases hmem with ((((((((h | h) | h) | h) | h) | h) | h) | h) | h)
  · exact absurd h (by decide)
  · rcases joinComma_chars res.rolls '\n' h with hd | hd
    · rw [hnl] at hd; exact absurd hd (by decide)
    · exact absurd hd (by decide)
  · exact absurd h (by decide)
  · have := (decimalOK_u64ToString res.total).2.1 '\n' h
    rw [hnl] at this; exact absurd this (by decide)
  · exact absurd h (by decide)
  · have := (decimalOK_u64ToString res.sides).2.1 '\n' h
    rw [hnl] at this; exact absurd this (by decide)
  · exact absurd h (by decide)
  · have := (decimalOK_u64ToString res.count).2.1 '\n' h
    rw [hnl] at this; exact absurd this (by decide)
  · exact absurd h (by decide)

/-- Witness for C8 on the concrete result of the spec scenario
`rolls = [4, 1, 6]`, `total = 11`, `sides = 6`, `count = 3`. -/
theorem C8_witness :
    decimalOK (u64ToString 4) ∧ '\n' ∉ (renderOutput ⟨[4, 1, 6], 11, 6, 3⟩).data :=
  ⟨(C8_output_format ⟨[4, 1, 6], 11, 6, 3⟩).2.2.2.2.2 4 (by decide),
    (C8_output_format ⟨[4, 1, 6], 11, 6, 3⟩).2.1⟩
